import Mathlib

/-!
Shallow embedding of the chess-trainer core of the `london-system-trainer`
repository: the move-quality classifier (`src/lib/services/moveAnalysis.ts`),
the opponent move selector (`getComputerMove` in `src/lib/types.ts`), the
game-state hook (`src/hooks/useChessGame.ts`) and the replay state machine
(`src/components/screens/PracticeScreen.tsx`).

The external chess rules engine (chess.js) is out of scope of the repository
and is modelled as an abstract interface `RulesEngine`: a call that throws in
JavaScript is modelled as returning `none`.  Centipawn scores are modelled as
integers (the code converts the evaluator's pawn value to centipawns by
multiplying by 100); random draws from `Math.random()` are modelled as
rational parameters.
-/

set_option autoImplicit false

namespace LondonTrainer

/-- Piece color shorthand, `type PieceColor = 'w' | 'b'` in `src/lib/types.ts`. -/
inductive PieceColor where
  | w
  | b
  deriving DecidableEq, Repr

/-- Move record as returned by the rules engine (chess.js `Move`): origin and
destination squares, resulting algebraic (SAN) text, optional promotion piece
and optional captured-piece tag. -/
structure MoveRec where
  fromSq : String
  toSq : String
  san : String
  promotion : Option Char
  captured : Option Char
  deriving DecidableEq, Repr

/-- Coordinate-pair move input, the `{ from, to, promotion }` object passed to
chess.js `move`. -/
structure MoveInput where
  fromSq : String
  toSq : String
  promotion : Option Char
  deriving DecidableEq, Repr

/-- Abstract interface to the external chess rules engine (chess.js).
Positions are canonical FEN strings.  A move call that throws (illegal move)
is modelled as `none`; a successful call returns the move record and the FEN
of the resulting position. -/
structure RulesEngine where
  coordMove : String → MoveInput → Option (MoveRec × String)
  sanMove : String → String → Option (MoveRec × String)
  legalMoves : String → List MoveRec
  gameOver : String → Bool

/-- Characters remaining after the first space. -/
def afterFirstSpace : List Char → List Char
  | [] => []
  | c :: rest => if c = ' ' then rest else afterFirstSpace rest

/-- Characters before the next space. -/
def beforeNextSpace : List Char → List Char
  | [] => []
  | c :: rest => if c = ' ' then [] else c :: beforeNextSpace rest

/-- Side to move encoded in the second space-separated field of a FEN string. -/
def fenSideToMove (fen : String) : Option PieceColor :=
  match beforeNextSpace (afterFirstSpace fen.toList) with
  | ['w'] => some PieceColor.w
  | ['b'] => some PieceColor.b
  | _ => none

/-- Live mutable game object (a chess.js `Chess` instance): current FEN plus
the move history, each history entry remembering the FEN it was played from so
that `undo` can restore it (chess.js `undo` pops the history). -/
structure LiveGame where
  fen : String
  hist : List (MoveRec × String)
  deriving DecidableEq, Repr

/-- Apply a coordinate move to a live game (`game.move({from,to,promotion})`):
`none` models the throw on an illegal move, leaving the game untouched. -/
def applyCoordMove (eng : RulesEngine) (g : LiveGame) (inp : MoveInput) :
    Option (MoveRec × LiveGame) :=
  match eng.coordMove g.fen inp with
  | none => none
  | some (m, fen') => some (m, ⟨fen', (m, g.fen) :: g.hist⟩)

/-- Apply a SAN move to a live game (`game.move(san)`). -/
def applySanMove (eng : RulesEngine) (g : LiveGame) (san : String) :
    Option (MoveRec × LiveGame) :=
  match eng.sanMove g.fen san with
  | none => none
  | some (m, fen') => some (m, ⟨fen', (m, g.fen) :: g.hist⟩)

/-- Undo the most recent move (`game.undo()`): restores the FEN recorded when
that move was played; a no-op on an empty history. -/
def undoLive (g : LiveGame) : LiveGame :=
  match g.hist with
  | [] => g
  | (_, prev) :: rest => ⟨prev, rest⟩

/-! ### Move-quality classifier (`src/lib/services/moveAnalysis.ts`) -/

/-- Thresholds for move quality classification (in centipawns). -/
structure EvalThresholds where
  good : Int
  inaccuracy : Int
  mistake : Int
  blunder : Int

/-- The fixed `EVAL_THRESHOLDS` constant of `moveAnalysis.ts`. -/
def EVAL_THRESHOLDS : EvalThresholds :=
  { good := 25, inaccuracy := 50, mistake := 100, blunder := 200 }

/-- Move quality classification tiers (`type MoveClassification`). -/
inductive MoveClassification where
  | excellent
  | good
  | inaccuracy
  | mistake
  | blunder
  deriving DecidableEq, Repr

/-- Classify a move based on evaluation drop (`classifyMove`). -/
def classifyMove (evalDrop : Int) : MoveClassification :=
  if evalDrop ≤ EVAL_THRESHOLDS.good then MoveClassification.excellent
  else if evalDrop ≤ EVAL_THRESHOLDS.inaccuracy then MoveClassification.good
  else if evalDrop ≤ EVAL_THRESHOLDS.mistake then MoveClassification.inaccuracy
  else if evalDrop ≤ EVAL_THRESHOLDS.blunder then MoveClassification.mistake
  else MoveClassification.blunder

/-! ### Move-quality analysis (`analyzeMoveQuality`, `src/unnamed/part_003`,
the version of `moveAnalysis.ts` consumed by `PracticeScreen.tsx`) -/

/-- Result of one external-evaluator request (`analyzePosition`): a centipawn
score (the code multiplies the evaluator's pawn value by 100; the score is
returned from White's perspective) and a suggested best move in UCI text. -/
structure EvalResult where
  evaluation : Int
  bestMove : String
  deriving DecidableEq, Repr

/-- Analysis record of a single move's quality (`interface MoveQuality`,
extended with the square fields produced in `src/unnamed/part_003`). -/
structure MoveQuality where
  moveNumber : Nat
  move : String
  evalBefore : Int
  evalAfter : Int
  evalDrop : Int
  classification : MoveClassification
  bestMove : String
  moveFrom : Option String
  moveTo : Option String
  bestMoveFrom : String
  bestMoveTo : String
  deriving DecidableEq, Repr

/-- Origin square of a UCI move string (`uci.slice(0, 2)`). -/
def uciFromSq (u : String) : String := u.take 2

/-- Destination square of a UCI move string (`uci.slice(2, 4)`). -/
def uciToSq (u : String) : String := (u.drop 2).take 2

/-- Promotion letter of a UCI move string (`uci.length > 4 ? uci[4] :
undefined`). -/
def uciPromo (u : String) : Option Char :=
  if u.length > 4 then u.toList.get? 4 else none

/-- Shallow embedding of `analyzeMoveQuality`.  The two evaluator requests are
modelled by `evalOf` (`none` = network failure); a thrown exception anywhere
makes the whole call return `none` (the outer catch returns `null`).  The
inner try/catch around the UCI-to-SAN conversion keeps the raw UCI text on
failure.  The played move is re-derived with the same engine call that
produced `fenAfter` (the code applies `moveSan` to two identical clones of the
before-position, which is deterministic). -/
def analyzeMoveQuality (eng : RulesEngine) (evalOf : String → Option EvalResult)
    (fen moveSan : String) (moveNumber : Nat) : Option MoveQuality :=
  match evalOf fen with
  | none => none
  | some analysisBefore =>
    let evalBefore := analysisBefore.evaluation
    let bestMoveUci := analysisBefore.bestMove
    match eng.sanMove fen moveSan with
    | none => none
    | some (playedMove, fenAfter) =>
      let bestMoveFrom := uciFromSq bestMoveUci
      let bestMoveTo := uciToSq bestMoveUci
      let bestMove :=
        match eng.coordMove fen ⟨bestMoveFrom, bestMoveTo, uciPromo bestMoveUci⟩ with
        | some (m, _) => m.san
        | none => bestMoveUci
      match evalOf fenAfter with
      | none => none
      | some analysisAfter =>
        let evalAfter := analysisAfter.evaluation
        let evalDrop := evalBefore - evalAfter
        some { moveNumber := moveNumber
               move := moveSan
               evalBefore := evalBefore
               evalAfter := evalAfter
               evalDrop := max 0 evalDrop
               classification := classifyMove (max 0 evalDrop)
               bestMove := bestMove
               moveFrom := some playedMove.fromSq
               moveTo := some playedMove.toSq
               bestMoveFrom := bestMoveFrom
               bestMoveTo := bestMoveTo }

/-- Sign of a perspective flip: +1 for White, −1 for Black. -/
def perspectiveSign : PieceColor → Int
  | PieceColor.w => 1
  | PieceColor.b => -1

/-- Modelled from the spec: the evaluation drop "from the perspective of the
side that moved", computed from the two White-perspective evaluator scores by
flipping both signs for a Black mover and clamping negative drops to zero.
This is the spec-side definition compared against what the code stores. -/
def moverEvalDrop (mover : PieceColor) (evalBeforeWhite evalAfterWhite : Int) : Int :=
  max 0 (perspectiveSign mover * evalBeforeWhite - perspectiveSign mover * evalAfterWhite)

/-! ### Game-state hook (`src/hooks/useChessGame.ts`) -/

/-- React state owned by `useChessGame`: the live chess.js instance plus the
selection, legal-destination and last-move-marker state and the `boardKey`
render counter. -/
structure HookState where
  game : LiveGame
  selectedSquare : Option String
  legalMoves : List String
  lastMove : Option (String × String)
  boardKey : Nat
  deriving DecidableEq, Repr

/-- Shallow embedding of the hook's `makeMove`: attempts
`game.move({ from, to, promotion: 'q' })`; on success records the last-move
marker, clears the selection and legal-move set and bumps `boardKey`; an
illegal move (chess.js throw, modelled as `none`) is caught and leaves every
piece of state untouched, returning `null`. -/
def makeMove (eng : RulesEngine) (s : HookState) (fromSq toSq : String) :
    Option MoveRec × HookState :=
  match applyCoordMove eng s.game { fromSq := fromSq, toSq := toSq, promotion := some 'q' } with
  | some (m, g') =>
    (some m, { game := g', selectedSquare := none, legalMoves := [],
               lastMove := some (m.fromSq, m.toSq), boardKey := s.boardKey + 1 })
  | none => (none, s)

/-- Move attempt of the practice-screen click handler
(`PracticeScreen.tsx`, `handleSquareClick`): applies
`game.move({ from: selectedSquare, to: square, promotion: 'q' })` to the live
game, returning the move record, or leaves the game untouched when chess.js
throws. -/
def practiceTryMove (eng : RulesEngine) (g : LiveGame) (selected target : String) :
    Option MoveRec × LiveGame :=
  match applyCoordMove eng g { fromSq := selected, toSq := target, promotion := some 'q' } with
  | some (m, g') => (some m, g')
  | none => (none, g)

/-! ### Replay state machine (`PracticeScreen.tsx`) -/

/-- The fixed auto-advance base interval, `REPLAY_INTERVAL_MS = 1000` in
`src/lib/constants.ts`. -/
def REPLAY_INTERVAL_MS : ℚ := 1000

/-- Recorded game being replayed; of the fields of `interface RecordedGame`
only the move-history list matters to the replay claims. -/
structure RecordedGame where
  moveHistory : List String
  deriving DecidableEq, Repr

/-- Replay state (`interface ReplayState`). -/
structure ReplayState where
  isReplaying : Bool
  currentMoveIndex : Nat
  isPlaying : Bool
  speed : ℚ
  game : Option RecordedGame
  deriving DecidableEq, Repr

/-- Step forward (`nextReplayMove`): a no-op without a game or when the index
has reached the move count. -/
def nextReplayMove (s : ReplayState) : ReplayState :=
  match s.game with
  | none => s
  | some g =>
    if g.moveHistory.length ≤ s.currentMoveIndex then s
    else { s with currentMoveIndex := s.currentMoveIndex + 1 }

/-- Step backward (`prevReplayMove`): a no-op at index 0. -/
def prevReplayMove (s : ReplayState) : ReplayState :=
  if s.currentMoveIndex = 0 then s
  else { s with currentMoveIndex := s.currentMoveIndex - 1 }

/-- Toggle auto-advance (`toggleReplayPlayback`). -/
def toggleReplayPlayback (s : ReplayState) : ReplayState :=
  { s with isPlaying := !s.isPlaying }

/-- One run of the auto-play effect body: inactive states are untouched; at or
past the final index it switches `isPlaying` off without advancing; otherwise
the timer it schedules fires `nextReplayMove`. -/
def autoPlayStep (s : ReplayState) : ReplayState :=
  if s.isReplaying ∧ s.isPlaying then
    match s.game with
    | none => s
    | some g =>
      if g.moveHistory.length ≤ s.currentMoveIndex then { s with isPlaying := false }
      else nextReplayMove s
  else s

/-- Delay of the timer the auto-play effect schedules:
`REPLAY_INTERVAL_MS / replayState.speed`. -/
def autoPlayInterval (s : ReplayState) : ℚ := REPLAY_INTERVAL_MS / s.speed

/-- The standard initial position produced by `new Chess()`. -/
def START_FEN : String :=
  "rnbqkbnr/pppppppp/8/8/8/8/PPPPPPPP/RNBQKBNR w KQkq - 0 1"

/-- Replay reconstruction loop of the `replayGame` memo: starting from a fresh
instance, apply moves `[0, k)` of the recorded history, stopping early (the
`catch { break }`) if one fails to apply. -/
def replayFen (eng : RulesEngine) : Nat → String → List String → String
  | 0, fen, _ => fen
  | _ + 1, fen, [] => fen
  | k + 1, fen, mv :: rest =>
    match eng.sanMove fen mv with
    | none => fen
    | some (_, fen') => replayFen eng k fen' rest

/-- All of the first `k` recorded moves apply successfully from `fen` (no
early `break` happens during reconstruction). -/
def replayOk (eng : RulesEngine) : Nat → String → List String → Bool
  | 0, _, _ => true
  | _ + 1, _, [] => false
  | k + 1, fen, mv :: rest =>
    match eng.sanMove fen mv with
    | none => false
    | some (_, fen') => replayOk eng k fen' rest

/-- Board position displayed in replay mode: the `replayGame` memo rebuilds it
from a fresh instance as a pure function of the recorded game and the current
index (`null` outside replay mode). -/
def replayBoardFen (eng : RulesEngine) (s : ReplayState) : Option String :=
  if s.isReplaying then
    match s.game with
    | none => none
    | some g => some (replayFen eng s.currentMoveIndex START_FEN g.moveHistory)
  else none

/-- A navigation action of the replay UI. -/
inductive ReplayOp where
  | forward
  | backward
  deriving DecidableEq, Repr

/-- Run a sequence of navigation actions. -/
def runReplayOps (s : ReplayState) : List ReplayOp → ReplayState
  | [] => s
  | op :: rest =>
    runReplayOps (match op with
                  | ReplayOp.forward => nextReplayMove s
                  | ReplayOp.backward => prevReplayMove s) rest

/-! ### Opponent move selector (`getComputerMove` in `src/lib/types.ts`) -/

/-- AI opponent difficulty levels (`type Difficulty`). -/
inductive Difficulty where
  | beginner
  | intermediate
  | advanced
  deriving DecidableEq, Repr

/-- One ranked continuation of the Lichess explorer response: UCI and SAN text
plus the white/draw/black game counts. -/
structure BookMove where
  uci : String
  san : String
  white : Nat
  draws : Nat
  black : Nat
  deriving DecidableEq, Repr

/-- Lichess explorer response body. -/
structure ExplorerData where
  white : Nat
  draws : Nat
  black : Nat
  moves : List BookMove
  deriving DecidableEq, Repr

/-- External-service responses observed during one `getComputerMove` call:
`none` models a network failure / thrown fetch. -/
structure ExtServices where
  lichess : Option ExplorerData
  stockfish : Option EvalResult

/-- Randomness drawn during one call: `rIndex` and `rBook` are the
`Math.random()` values of the beginner pick and of the weighted book draw,
`jitter` the per-move `Math.random() * 10` of the heuristic scorer. -/
structure RandSrc where
  rIndex : ℚ
  rBook : ℚ
  jitter : Nat → ℚ

/-- Recorded game count of a ranked continuation, `m.white + m.draws +
m.black`. -/
def bookWeight (m : BookMove) : ℚ := (m.white : ℚ) + m.draws + m.black

/-- Combined game count of a list of continuations (the `reduce` over the top
slice). -/
def totalWeight (l : List BookMove) : ℚ := (l.map bookWeight).sum

/-- The running weighted draw of the intermediate tier: subtract each
continuation's count from the scaled draw and stop at the first continuation
that sends it to zero or below; `chosen` stays `top[0]` if the loop never
breaks. -/
def weightedLoop (rand : ℚ) (chosen : BookMove) : List BookMove → BookMove
  | [] => chosen
  | m :: rest => if rand - bookWeight m ≤ 0 then m else weightedLoop (rand - bookWeight m) chosen rest

/-- Index version of the running weighted draw, used to state which
continuation the loop stops at. -/
def pickIndex (rand : ℚ) : List BookMove → Nat
  | [] => 0
  | m :: rest => if rand - bookWeight m ≤ 0 then 0 else pickIndex (rand - bookWeight m) rest + 1

/-- Heuristic score of one legal move: random jitter, +30 for a capture, +20
for a check (SAN contains '+'), +15 for a central destination, +5 for a
semi-central destination. -/
def scoreMove (jitterv : ℚ) (m : MoveRec) : ℚ :=
  jitterv + (if m.captured.isSome then 30 else 0) +
    (if m.san.contains '+' then 20 else 0) +
    (if m.toSq ∈ (["d4", "d5", "e4", "e5"] : List String) then 15 else 0) +
    (if m.toSq ∈ (["c3", "c4", "c5", "c6", "f3", "f4", "f5", "f6"] : List String) then 5 else 0)

/-- Score every legal move with its indexed jitter. -/
def scoreAll (jit : Nat → ℚ) (i : Nat) : List MoveRec → List (MoveRec × ℚ)
  | [] => []
  | m :: rest => (m, scoreMove (jit i) m) :: scoreAll jit (i + 1) rest

/-- First element of the stable descending sort by score: the earliest move
of maximal score (`scored.sort((a, b) => b.score - a.score)[0]`; JavaScript's
sort is stable, so ties keep their original order). -/
def bestScoredAux (best : MoveRec × ℚ) : List (MoveRec × ℚ) → MoveRec × ℚ
  | [] => best
  | x :: rest => bestScoredAux (if best.2 < x.2 then x else best) rest

/-- Top-scored move of a scored list (`none` only on an empty list, which the
callers' guards exclude). -/
def bestScored : List (MoveRec × ℚ) → Option (MoveRec × ℚ)
  | [] => none
  | x :: rest => some (bestScoredAux x rest)

/-- Heuristic fallback of the intermediate tier: score every legal move and
return the SAN of the top-scored one. -/
def heuristicMove (eng : RulesEngine) (rnd : RandSrc) (g : LiveGame) : Option String :=
  let moves := eng.legalMoves g.fen
  match bestScored (scoreAll rnd.jitter 0 moves) with
  | none => none
  | some (m, _) => some m.san

/-- Body of the intermediate tier: when the explorer call succeeds and returns
at least one ranked continuation, draw from the top three weighted by game
count; otherwise (network failure or empty list) fall through to the
heuristic scorer. -/
def intermediateMove (eng : RulesEngine) (sv : ExtServices) (rnd : RandSrc)
    (g : LiveGame) : Option String :=
  match sv.lichess with
  | some data =>
    if data.moves ≠ [] then
      match data.moves.take 3 with
      | [] => none
      | m0 :: _ =>
        some (weightedLoop (rnd.rBook * totalWeight (data.moves.take 3)) m0
          (data.moves.take 3)).san
    else heuristicMove eng rnd g
  | none => heuristicMove eng rnd g

/-- The recursive fallback call `getComputerMove(game, 'intermediate')` made
by the advanced tier: it re-runs the game-over and legal-move guards on the
unchanged game and then the intermediate body.  (The services are modelled as
the responses observed during the call.) -/
def advancedFallback (eng : RulesEngine) (sv : ExtServices) (rnd : RandSrc)
    (g : LiveGame) : Option String :=
  if eng.gameOver g.fen then none
  else if eng.legalMoves g.fen = [] then none
  else intermediateMove eng sv rnd g

/-- Shallow embedding of `getComputerMove`.  Returns the chosen SAN (or
`none`) together with the caller's game object, which the advanced tier
mutates with `game.move` and restores with `game.undo()` while validating the
evaluator's suggestion. -/
def getComputerMove (eng : RulesEngine) (sv : ExtServices) (rnd : RandSrc)
    (g : LiveGame) (difficulty : Difficulty) : Option String × LiveGame :=
  if eng.gameOver g.fen then (none, g)
  else
    let moves := eng.legalMoves g.fen
    if moves = [] then (none, g)
    else
      match difficulty with
      | Difficulty.beginner =>
        match moves.get? (rnd.rIndex * moves.length).floor.toNat with
        | some m => (some m.san, g)
        | none => (none, g)
      | Difficulty.intermediate => (intermediateMove eng sv rnd g, g)
      | Difficulty.advanced =>
        match sv.stockfish with
        | some analysis =>
          if analysis.bestMove ≠ "" then
            match applyCoordMove eng g
                { fromSq := uciFromSq analysis.bestMove, toSq := uciToSq analysis.bestMove,
                  promotion := uciPromo analysis.bestMove } with
            | some (m, g') => (some m.san, undoLive g')
            | none => (advancedFallback eng sv rnd g, g)
          else (advancedFallback eng sv rnd g, g)
        | none => (advancedFallback eng sv rnd g, g)

/-! ### Concrete scenario data used by counterexamples and witnesses -/

/-- Position after 1.d4, Black to move. -/
def cexFenBefore : String :=
  "rnbqkbnr/pppppppp/8/8/3P4/8/PPP1PPPP/RNBQKBNR b KQkq d3 0 1"

/-- Position after 1.d4 g5, White to move. -/
def cexFenAfter : String :=
  "rnbqkbnr/pppppp1p/8/6p1/3P4/8/PPP1PPPP/RNBQKBNR w KQkq g6 0 2"

/-- Table-driven rules engine for the Black-mover scenario: the only known
move is Black's reply g5 from `cexFenBefore`. -/
def cexEngine : RulesEngine :=
  { coordMove := fun _ _ => none
    sanMove := fun fen san =>
      if fen = cexFenBefore ∧ san = "g5" then
        some ({ fromSq := "g7", toSq := "g5", san := "g5",
                promotion := none, captured := none }, cexFenAfter)
      else none
    legalMoves := fun _ => []
    gameOver := fun _ => false }

/-- Concrete evaluator runs: −100 cp (White's perspective, i.e. +100 for
Black) before Black's move and 0 after it — Black's move lost a pawn's worth
of advantage for the mover. -/
def cexEval : String → Option EvalResult := fun fen =>
  if fen = cexFenBefore then some { evaluation := -100, bestMove := "g8f6" }
  else if fen = cexFenAfter then some { evaluation := 0, bestMove := "" }
  else none

/-- Simple position with White to move, used for the White-mover witness. -/
def witFenBefore : String := "4k3/8/8/8/8/8/3QP3/4K3 w - - 0 1"

/-- Position reached after White's move in the witness scenario. -/
def witFenAfter : String := "4k3/8/8/8/7Q/8/4P3/4K3 b - - 1 1"

/-- Table-driven rules engine for the White-mover witness scenario. -/
def witEngine : RulesEngine :=
  { coordMove := fun fen inp =>
      if fen = witFenBefore ∧ inp = { fromSq := "e2", toSq := "e4", promotion := none } then
        some ({ fromSq := "e2", toSq := "e4", san := "e4",
                promotion := none, captured := none }, "4k3/8/8/8/4P3/8/8/3QK3 b - - 0 1")
      else none
    sanMove := fun fen san =>
      if fen = witFenBefore ∧ san = "Qh4" then
        some ({ fromSq := "d2", toSq := "h4", san := "Qh4",
                promotion := none, captured := none }, witFenAfter)
      else none
    legalMoves := fun _ => []
    gameOver := fun _ => false }

/-- Concrete evaluator runs for the witness: +50 cp before the move, −150 cp
after it, both for the side that just moved (White). -/
def witEval : String → Option EvalResult := fun fen =>
  if fen = witFenBefore then some { evaluation := 50, bestMove := "e2e4" }
  else if fen = witFenAfter then some { evaluation := -150, bestMove := "" }
  else none

/-- The record `analyzeMoveQuality` produces in the witness scenario. -/
def witQuality : MoveQuality :=
  { moveNumber := 6, move := "Qh4", evalBefore := 50, evalAfter := -150,
    evalDrop := 200, classification := MoveClassification.mistake,
    bestMove := "e4", moveFrom := some "d2", moveTo := some "h4",
    bestMoveFrom := "e2", bestMoveTo := "e4" }

/-- Initial hook state over the witness position. -/
def hookState0 : HookState :=
  { game := { fen := witFenBefore, hist := [] }, selectedSquare := none,
    legalMoves := [], lastMove := none, boardKey := 0 }

/-- Position with a White pawn one step from promotion. -/
def promoFen : String := "8/4P3/8/8/8/8/8/k1K5 w - - 0 1"

/-- Table-driven engine whose only known move is the promotion e7–e8; the move
record echoes whatever promotion piece the caller requested, as chess.js
does. -/
def promoEngine : RulesEngine :=
  { coordMove := fun fen inp =>
      if fen = promoFen ∧ inp.fromSq = "e7" ∧ inp.toSq = "e8" then
        some ({ fromSq := inp.fromSq, toSq := inp.toSq, san := "e8=Q+",
                promotion := inp.promotion, captured := none },
              "4Q3/8/8/8/8/8/8/k1K5 b - - 0 1")
      else none
    sanMove := fun _ _ => none
    legalMoves := fun _ => []
    gameOver := fun _ => false }

/-- Hook state over the promotion position. -/
def promoHookState : HookState :=
  { game := { fen := promoFen, hist := [] }, selectedSquare := some "e7",
    legalMoves := ["e8"], lastMove := none, boardKey := 3 }

/-- Position after 1.d4 in the replay scenario. -/
def repFen1 : String :=
  "rnbqkbnr/pppppppp/8/8/3P4/8/PPP1PPPP/RNBQKBNR b KQkq d3 0 1"

/-- Position after 1.d4 d5 in the replay scenario. -/
def repFen2 : String :=
  "rnbqkbnr/ppp1pppp/8/3p4/3P4/8/PPP1PPPP/RNBQKBNR w KQkq d6 0 2"

/-- Table-driven engine replaying 1.d4 d5 from the start position. -/
def repEngine : RulesEngine :=
  { coordMove := fun _ _ => none
    sanMove := fun fen san =>
      if fen = START_FEN ∧ san = "d4" then
        some ({ fromSq := "d2", toSq := "d4", san := "d4",
                promotion := none, captured := none }, repFen1)
      else if fen = repFen1 ∧ san = "d5" then
        some ({ fromSq := "d7", toSq := "d5", san := "d5",
                promotion := none, captured := none }, repFen2)
      else none
    legalMoves := fun _ => []
    gameOver := fun _ => false }

/-- A recorded two-move game. -/
def repGame : RecordedGame := { moveHistory := ["d4", "d5"] }

/-- Replay state at index 0 of the recorded game. -/
def repState : ReplayState :=
  { isReplaying := true, currentMoveIndex := 0, isPlaying := false,
    speed := 1, game := some repGame }

/-- Replay state at the final index with auto-advance running. -/
def repStateEnd : ReplayState :=
  { isReplaying := true, currentMoveIndex := 2, isPlaying := true,
    speed := 1, game := some repGame }

/-- The legal reply 1...e5 used by the selector witnesses. -/
def e4Rec : MoveRec :=
  { fromSq := "e2", toSq := "e4", san := "e4", promotion := none, captured := none }

/-- Engine for the selector witnesses: one legal move from the start
position, game not over. -/
def svcEngine : RulesEngine :=
  { coordMove := fun _ _ => none
    sanMove := fun _ _ => none
    legalMoves := fun fen => if fen = START_FEN then [e4Rec] else []
    gameOver := fun _ => false }

/-- Live game at the start position. -/
def svcGame : LiveGame := { fen := START_FEN, hist := [] }

/-- Fixed randomness: both draws 0, zero jitter. -/
def halfRnd : RandSrc := { rIndex := 0, rBook := 0, jitter := fun _ => 0 }

/-- Explorer response with four ranked continuations (counts 10, 4, 2, 1). -/
def bookData : ExplorerData :=
  { white := 100, draws := 50, black := 50,
    moves := [ { uci := "g8f6", san := "Nf6", white := 5, draws := 3, black := 2 },
               { uci := "d7d5", san := "d5", white := 2, draws := 1, black := 1 },
               { uci := "e7e6", san := "e6", white := 1, draws := 0, black := 1 },
               { uci := "c7c5", san := "c5", white := 1, draws := 0, black := 0 } ] }

/-- Services with a successful explorer response and no evaluator. -/
def bookSv : ExtServices := { lichess := some bookData, stockfish := none }

/-- Services with every external call failing. -/
def failSv : ExtServices := { lichess := none, stockfish := none }

end LondonTrainer

namespace LondonTrainer

/-- C1: the classifier, applied to `max 0 evalDrop` as `analyzeMoveQuality`
does, buckets every drop `d` with inclusive lower-tier boundaries: `d ≤ 25`
gives excellent, `26 ≤ d ≤ 50` good, `51 ≤ d ≤ 100` inaccuracy,
`101 ≤ d ≤ 200` mistake, `d ≥ 201` blunder; every negative `evalDrop`
classifies as excellent (it is clamped to 0, which lands in the first
bucket). -/
theorem classifyMove_buckets (d : Int) :
    classifyMove (max 0 d) =
      if d ≤ 25 then MoveClassification.excellent
      else if d ≤ 50 then MoveClassification.good
      else if d ≤ 100 then MoveClassification.inaccuracy
      else if d ≤ 200 then MoveClassification.mistake
      else MoveClassification.blunder := by
  rcases le_total d 0 with h | h
  · rw [max_eq_left h]
    rw [if_pos (show d ≤ 25 by omega)]
    decide
  · rw [max_eq_right h]
    rfl

/-- C2 (counterexample): the claim that the stored `evalDrop` is computed
from scores normalized to the mover's perspective "whichever color moved"
fails when Black is the mover.  In the concrete run below, Black to move
(`cexFenBefore` has side-to-move `b`) plays a move after which the
White-perspective evaluation rises from −100 to 0 — a 100 cp loss for the
mover — yet the code stores `evalDrop = 0` (and classifies the move
excellent), while the mover-perspective drop of the claim is 100. -/
theorem analyzeMoveQuality_black_mover_cex :
    fenSideToMove cexFenBefore = some PieceColor.b ∧
    (analyzeMoveQuality cexEngine cexEval cexFenBefore "g5" 1).map
      MoveQuality.evalBefore = some (-100) ∧
    (analyzeMoveQuality cexEngine cexEval cexFenBefore "g5" 1).map
      MoveQuality.evalAfter = some 0 ∧
    (analyzeMoveQuality cexEngine cexEval cexFenBefore "g5" 1).map
      MoveQuality.evalDrop = some 0 ∧
    moverEvalDrop PieceColor.b (-100) 0 = 100 := by
  refine ⟨?_, ?_, ?_, ?_, ?_⟩ <;> decide

/-- C2 (amended): every record returned by `analyzeMoveQuality` stores
`evalDrop = max 0 (evalBefore − evalAfter)` over the evaluator's raw
White-perspective scores, and the classification of that drop; this equals
the mover's-perspective drop whenever White was the side to move in the
before-position (the only case the application analyzes), and in particular
a +50 cp before / −150 cp after evaluation yields `evalDrop = 200` and
classification mistake. -/
theorem analyzeMoveQuality_evalDrop_spec (eng : RulesEngine)
    (evalOf : String → Option EvalResult) (fen moveSan : String) (n : Nat)
    (r : MoveQuality) (h : analyzeMoveQuality eng evalOf fen moveSan n = some r) :
    r.evalDrop = max 0 (r.evalBefore - r.evalAfter) ∧
    r.classification = classifyMove r.evalDrop ∧
    (fenSideToMove fen = some PieceColor.w →
      r.evalDrop = moverEvalDrop PieceColor.w r.evalBefore r.evalAfter) ∧
    (r.evalBefore = 50 → r.evalAfter = -150 →
      r.evalDrop = 200 ∧ r.classification = MoveClassification.mistake) := by
  unfold analyzeMoveQuality at h
  split at h
  · exact Option.noConfusion h
  · split at h
    · exact Option.noConfusion h
    · split at h
      · exact Option.noConfusion h
      · injection h with h
        subst h
        refine ⟨rfl, rfl, ?_, ?_⟩
        · intro _
          simp [moverEvalDrop, perspectiveSign]
        · intro hb ha
          dsimp only at hb ha ⊢
          rw [hb, ha]
          exact ⟨rfl, rfl⟩

/-- Witness for C2's amended theorem: the concrete White-mover scenario with
evaluations +50 before and −150 after produces drop 200 and classification
mistake. -/
theorem analyzeMoveQuality_evalDrop_spec_witness :
    witQuality.evalDrop = moverEvalDrop PieceColor.w witQuality.evalBefore
      witQuality.evalAfter ∧
    witQuality.evalDrop = 200 ∧
    witQuality.classification = MoveClassification.mistake := by
  have H := analyzeMoveQuality_evalDrop_spec witEngine witEval witFenBefore
    "Qh4" 6 witQuality (by decide)
  exact ⟨H.2.2.1 (by decide), H.2.2.2 (by decide) (by decide)⟩

/-- C8: every record produced by a successful `analyzeMoveQuality` call
carries, besides the move number and notation, the origin and destination
squares of the played move (taken from the engine's move record) and of the
suggested best move (the first and second square of the evaluator's UCI
text); the evaluation fields and classification are part of the record by
construction. -/
theorem analyzeMoveQuality_record_squares (eng : RulesEngine)
    (evalOf : String → Option EvalResult) (fen moveSan : String) (n : Nat)
    (r : MoveQuality) (h : analyzeMoveQuality eng evalOf fen moveSan n = some r) :
    r.moveNumber = n ∧ r.move = moveSan ∧
    (∃ m fenAfter, eng.sanMove fen moveSan = some (m, fenAfter) ∧
      r.moveFrom = some m.fromSq ∧ r.moveTo = some m.toSq) ∧
    (∃ a, evalOf fen = some a ∧ r.bestMoveFrom = uciFromSq a.bestMove ∧
      r.bestMoveTo = uciToSq a.bestMove) := by
  unfold analyzeMoveQuality at h
  split at h
  · exact Option.noConfusion h
  · rename_i analysisBefore heq1
    split at h
    · exact Option.noConfusion h
    · rename_i playedMove fenAfter heq2
      split at h
      · exact Option.noConfusion h
      · injection h with h
        subst h
        exact ⟨rfl, rfl, ⟨playedMove, fenAfter, heq2, rfl, rfl⟩,
               ⟨analysisBefore, heq1, rfl, rfl⟩⟩

/-- Witness for C8: in the concrete White-mover scenario the produced record
holds the played move's squares d2 → h4 and the suggested best move's squares
e2 → e4. -/
theorem analyzeMoveQuality_record_squares_witness :
    witQuality.moveNumber = 6 ∧ witQuality.move = "Qh4" := by
  have H := analyzeMoveQuality_record_squares witEngine witEval witFenBefore
    "Qh4" 6 witQuality (by decide)
  exact ⟨H.1, H.2.1⟩

/-- C3: when the requested origin/destination pair is not a legal move (the
rules engine rejects it, which in chess.js surfaces as a thrown exception the
hook catches), `makeMove` returns failure and leaves every piece of state
unchanged: the live position's FEN and history, the selection, the legal-move
set and the last-move marker. -/
theorem makeMove_illegal_noop (eng : RulesEngine) (s : HookState)
    (fromSq toSq : String)
    (h : eng.coordMove s.game.fen
      { fromSq := fromSq, toSq := toSq, promotion := some 'q' } = none) :
    makeMove eng s fromSq toSq = (none, s) ∧
    (makeMove eng s fromSq toSq).2.game.fen = s.game.fen ∧
    (makeMove eng s fromSq toSq).2.game.hist = s.game.hist ∧
    (makeMove eng s fromSq toSq).2.selectedSquare = s.selectedSquare ∧
    (makeMove eng s fromSq toSq).2.legalMoves = s.legalMoves ∧
    (makeMove eng s fromSq toSq).2.lastMove = s.lastMove := by
  have hm : makeMove eng s fromSq toSq = (none, s) := by
    unfold makeMove applyCoordMove
    rw [h]
  exact ⟨hm, by rw [hm], by rw [hm], by rw [hm], by rw [hm], by rw [hm]⟩

/-- Witness for C3: an unknown origin/destination pair on the concrete engine
is rejected with the state returned untouched. -/
theorem makeMove_illegal_noop_witness :
    makeMove witEngine hookState0 "a1" "a2" = (none, hookState0) :=
  (makeMove_illegal_noop witEngine hookState0 "a1" "a2" (by decide)).1

/-- Auxiliary fact about the concrete promotion engine: the move records it
returns echo the requested promotion piece, as chess.js does. -/
theorem promoEngine_promotion_faithful :
    ∀ fen inp m fen', promoEngine.coordMove fen inp = some (m, fen') →
      m.promotion.isSome → m.promotion = inp.promotion := by
  intro fen inp m fen' h _
  unfold promoEngine at h
  dsimp only at h
  split at h
  · injection h with h
    injection h with h1 h2
    subst h1
    rfl
  · exact Option.noConfusion h

/-- C10: both live-play move paths — the hook's `makeMove` and the practice
screen's click handler — always request promotion piece 'q' from the rules
engine, so whenever the resulting move record is a promotion at all, it
promotes to a queen; no under-promotion is reachable through the board
(assuming the engine echoes the requested promotion piece, as chess.js
does). -/
theorem promotion_always_queen (eng : RulesEngine)
    (hE : ∀ fen inp m fen', eng.coordMove fen inp = some (m, fen') →
      m.promotion.isSome → m.promotion = inp.promotion)
    (s : HookState) (g : LiveGame) (selected target fromSq toSq : String) :
    (∀ m, (makeMove eng s fromSq toSq).1 = some m → m.promotion.isSome →
      m.promotion = some 'q') ∧
    (∀ m, (practiceTryMove eng g selected target).1 = some m → m.promotion.isSome →
      m.promotion = some 'q') := by
  constructor
  · intro m hm hp
    unfold makeMove at hm
    split at hm
    · rename_i m' g' hac
      injection hm with hm
      subst hm
      unfold applyCoordMove at hac
      split at hac
      · exact Option.noConfusion hac
      · rename_i m2 fen' hcm
        injection hac with hac
        injection hac with h1 h2
        subst h1
        exact hE _ _ _ _ hcm hp
    · exact Option.noConfusion hm
  · intro m hm hp
    unfold practiceTryMove at hm
    split at hm
    · rename_i m' g' hac
      injection hm with hm
      subst hm
      unfold applyCoordMove at hac
      split at hac
      · exact Option.noConfusion hac
      · rename_i m2 fen' hcm
        injection hac with hac
        injection hac with h1 h2
        subst h1
        exact hE _ _ _ _ hcm hp
    · exact Option.noConfusion hm

/-- Witness for C10: the concrete promotion move through `makeMove` comes
back with promotion piece 'q'. -/
theorem promotion_always_queen_witness :
    (makeMove promoEngine promoHookState "e7" "e8").1 =
      some { fromSq := "e7", toSq := "e8", san := "e8=Q+",
             promotion := some 'q', captured := none } ∧
    ({ fromSq := "e7", toSq := "e8", san := "e8=Q+",
       promotion := some 'q', captured := none } : MoveRec).promotion = some 'q' := by
  have hd : (makeMove promoEngine promoHookState "e7" "e8").1 =
      some { fromSq := "e7", toSq := "e8", san := "e8=Q+",
             promotion := some 'q', captured := none } := by decide
  exact ⟨hd, (promotion_always_queen promoEngine promoEngine_promotion_faithful
    promoHookState promoHookState.game "e7" "e8" "e7" "e8").1 _ hd (by decide)⟩

/-- Stepping forward never touches the recorded game. -/
theorem nextReplayMove_game (s : ReplayState) : (nextReplayMove s).game = s.game := by
  unfold nextReplayMove
  split
  · rfl
  · split <;> rfl

/-- Stepping backward never touches the recorded game. -/
theorem prevReplayMove_game (s : ReplayState) : (prevReplayMove s).game = s.game := by
  unfold prevReplayMove
  split <;> rfl

/-- Stepping forward never leaves replay mode. -/
theorem nextReplayMove_isReplaying (s : ReplayState) :
    (nextReplayMove s).isReplaying = s.isReplaying := by
  unfold nextReplayMove
  split
  · rfl
  · split <;> rfl

/-- Stepping backward never leaves replay mode. -/
theorem prevReplayMove_isReplaying (s : ReplayState) :
    (prevReplayMove s).isReplaying = s.isReplaying := by
  unfold prevReplayMove
  split <;> rfl

/-- Navigation sequences never touch the recorded game. -/
theorem runReplayOps_game (ops : List ReplayOp) : ∀ s : ReplayState,
    (runReplayOps s ops).game = s.game := by
  induction ops with
  | nil => intro s; rfl
  | cons op rest ih =>
    intro s
    cases op
    · rw [runReplayOps, ih (nextReplayMove s), nextReplayMove_game]
    · rw [runReplayOps, ih (prevReplayMove s), prevReplayMove_game]

/-- Navigation sequences never leave replay mode. -/
theorem runReplayOps_isReplaying (ops : List ReplayOp) : ∀ s : ReplayState,
    (runReplayOps s ops).isReplaying = s.isReplaying := by
  induction ops with
  | nil => intro s; rfl
  | cons op rest ih =>
    intro s
    cases op
    · rw [runReplayOps, ih (nextReplayMove s), nextReplayMove_isReplaying]
    · rw [runReplayOps, ih (prevReplayMove s), prevReplayMove_isReplaying]

/-- Direct reconstruction composes with single steps: when the first `k`
recorded moves replay cleanly and move `k` applies to the reconstruction at
index `k`, reconstructing index `k + 1` from scratch lands exactly on the
position that single step produces. -/
theorem replayFen_step (eng : RulesEngine) :
    ∀ (k : Nat) (l : List String) (f mv : String) (rec : MoveRec) (fen' : String),
      l.get? k = some mv → replayOk eng k f l = true →
      eng.sanMove (replayFen eng k f l) mv = some (rec, fen') →
      replayFen eng (k + 1) f l = fen' := by
  intro k
  induction k with
  | zero =>
    intro l f mv rec fen' hget hok hs
    rcases l with _ | ⟨a, rest⟩
    · exact Option.noConfusion hget
    · rw [List.get?_cons_zero] at hget
      injection hget with hget
      have hf : replayFen eng 0 f (a :: rest) = f := rfl
      rw [hf, ← hget] at hs
      show (match eng.sanMove f a with
            | none => f
            | some (_, fen'') => replayFen eng 0 fen'' rest) = fen'
      rw [hs]
      rfl
  | succ k ih =>
    intro l f mv rec fen' hget hok hs
    rcases l with _ | ⟨a, rest⟩
    · exact Option.noConfusion hget
    · rcases hsa : eng.sanMove f a with _ | ⟨r0, fa⟩
      · rw [show replayOk eng (k + 1) f (a :: rest) =
              (match eng.sanMove f a with
               | none => false
               | some (_, fen'') => replayOk eng k fen'' rest) from rfl, hsa] at hok
        exact Bool.noConfusion hok
      · have hok' : replayOk eng k fa rest = true := by
          rw [show replayOk eng (k + 1) f (a :: rest) =
                (match eng.sanMove f a with
                 | none => false
                 | some (_, fen'') => replayOk eng k fen'' rest) from rfl, hsa] at hok
          exact hok
        have hget' : rest.get? k = some mv := by
          rw [List.get?_cons_succ] at hget
          exact hget
        have hrf : ∀ j, replayFen eng (j + 1) f (a :: rest) = replayFen eng j fa rest := by
          intro j
          show (match eng.sanMove f a with
                | none => f
                | some (_, fen'') => replayFen eng j fen'' rest) = replayFen eng j fa rest
          rw [hsa]
        rw [hrf k] at hs
        rw [hrf (k + 1)]
        exact ih rest fa mv rec fen' hget' hok' hs

/-- C5: replay reconstruction is path-independent.  The displayed board is a
pure function of the current index, rebuilt from a fresh instance, so any two
navigation sequences (arbitrary forward/backward steps) that end at the same
index display the same FEN; and direct reconstruction at index `k + 1` equals
one engine step applied to the reconstruction at index `k` whenever the first
`k` moves replay cleanly — jumping and stepping agree. -/
theorem replayGame_reconstruction (eng : RulesEngine) (s : ReplayState)
    (ops1 ops2 : List ReplayOp)
    (hidx : (runReplayOps s ops1).currentMoveIndex =
      (runReplayOps s ops2).currentMoveIndex) :
    replayBoardFen eng (runReplayOps s ops1) =
      replayBoardFen eng (runReplayOps s ops2) ∧
    (∀ (l : List String) (k : Nat) (mv : String) (rec : MoveRec) (fen' : String),
      l.get? k = some mv → replayOk eng k START_FEN l = true →
      eng.sanMove (replayFen eng k START_FEN l) mv = some (rec, fen') →
      replayFen eng (k + 1) START_FEN l = fen') := by
  constructor
  · unfold replayBoardFen
    rw [runReplayOps_isReplaying, runReplayOps_isReplaying,
        runReplayOps_game, runReplayOps_game, hidx]
  · intro l k mv rec fen' hget hok hs
    exact replayFen_step eng k l START_FEN mv rec fen' hget hok hs

/-- Witness for C5: stepping forward twice and back once displays the same
position as a single forward step on the concrete two-move recorded game. -/
theorem replayGame_reconstruction_witness :
    replayBoardFen repEngine
      (runReplayOps repState [ReplayOp.forward, ReplayOp.forward, ReplayOp.backward]) =
    replayBoardFen repEngine (runReplayOps repState [ReplayOp.forward]) :=
  (replayGame_reconstruction repEngine repState
    [ReplayOp.forward, ReplayOp.forward, ReplayOp.backward] [ReplayOp.forward]
    (by decide)).1

/-- C6: the replay index never leaves `[0, moveCount]`: stepping forward at
the final index and stepping backward at index 0 are no-ops, stepping
preserves the upper bound, and when the auto-play effect finds the index at
(or past) the final position it switches `isPlaying` off without advancing;
the timer it otherwise schedules fires after `REPLAY_INTERVAL_MS` divided by
the selected speed. -/
theorem replay_index_clamped (s : ReplayState) (g : RecordedGame)
    (hg : s.game = some g) :
    (s.currentMoveIndex = g.moveHistory.length → nextReplayMove s = s) ∧
    (s.currentMoveIndex = 0 → prevReplayMove s = s) ∧
    (s.currentMoveIndex ≤ g.moveHistory.length →
      (nextReplayMove s).currentMoveIndex ≤ g.moveHistory.length ∧
      (prevReplayMove s).currentMoveIndex ≤ g.moveHistory.length) ∧
    (s.isReplaying = true → s.isPlaying = true →
      g.moveHistory.length ≤ s.currentMoveIndex →
      autoPlayStep s = { s with isPlaying := false }) ∧
    autoPlayInterval s = REPLAY_INTERVAL_MS / s.speed := by
  refine ⟨?_, ?_, ?_, ?_, rfl⟩
  · intro hend
    unfold nextReplayMove
    rw [hg]
    simp [hend]
  · intro h0
    unfold prevReplayMove
    simp [h0]
  · intro hle
    constructor
    · unfold nextReplayMove
      rw [hg]
      rcases le_or_lt g.moveHistory.length s.currentMoveIndex with hc | hc
      · simp only [if_pos hc]
        exact hle
      · have hnc : ¬ g.moveHistory.length ≤ s.currentMoveIndex := by omega
        simp only [if_neg hnc]
        omega
    · unfold prevReplayMove
      rcases Nat.eq_zero_or_pos s.currentMoveIndex with hz | hp
      · simp only [if_pos hz]
        exact hle
      · have hnz : ¬ s.currentMoveIndex = 0 := by omega
        simp only [if_neg hnz]
        show s.currentMoveIndex - 1 ≤ g.moveHistory.length
        omega
  · intro hrep hplay hend
    unfold autoPlayStep
    rw [hg]
    simp [hrep, hplay, hend]

/-- Witness for C6: at the final index of the concrete recorded game the
forward step is a no-op and the running auto-play switches itself off. -/
theorem replay_index_clamped_witness :
    nextReplayMove repStateEnd = repStateEnd ∧
    autoPlayStep repStateEnd = { repStateEnd with isPlaying := false } := by
  have H := replay_index_clamped repStateEnd repGame rfl
  exact ⟨H.1 (by decide), H.2.2.2.1 rfl rfl (by decide)⟩

/-- Undoing a just-applied coordinate move restores the original game. -/
theorem undoLive_applyCoordMove (eng : RulesEngine) (g : LiveGame) (inp : MoveInput)
    (m : MoveRec) (g' : LiveGame) (h : applyCoordMove eng g inp = some (m, g')) :
    undoLive g' = g := by
  unfold applyCoordMove at h
  split at h
  · exact Option.noConfusion h
  · rename_i m2 fen' hcm
    injection h with h
    injection h with h1 h2
    subst h2
    rfl

/-- C9: `getComputerMove` never changes the position it is given: at every
difficulty tier the game object returned alongside the SAN equals the input
game (same FEN, same history).  The advanced tier applies the evaluator's
suggestion to the caller's game to validate it and immediately undoes it. -/
theorem getComputerMove_preserves_game (eng : RulesEngine) (sv : ExtServices)
    (rnd : RandSrc) (g : LiveGame) (d : Difficulty) :
    (getComputerMove eng sv rnd g d).2 = g := by
  cases d
  · unfold getComputerMove
    split
    · rfl
    · try dsimp only
      split
      · rfl
      · try dsimp only
        split <;> rfl
  · unfold getComputerMove
    split
    · rfl
    · try dsimp only
      split
      · rfl
      · rfl
  · unfold getComputerMove
    split
    · rfl
    · try dsimp only
      split
      · rfl
      · try dsimp only
        split
        · split
          · split
            · rename_i m g' hac
              exact undoLive_applyCoordMove eng g _ m g' hac
            · rfl
          · rfl
        · rfl

/-- Game counts are nonnegative. -/
theorem bookWeight_nonneg (m : BookMove) : 0 ≤ bookWeight m := by
  unfold bookWeight
  positivity

/-- Combined count of no continuations. -/
theorem totalWeight_nil : totalWeight [] = 0 := by
  simp [totalWeight]

/-- Combined count splits off the head continuation. -/
theorem totalWeight_cons (m : BookMove) (l : List BookMove) :
    totalWeight (m :: l) = bookWeight m + totalWeight l := by
  simp [totalWeight]

/-- Combined counts are nonnegative. -/
theorem totalWeight_nonneg (l : List BookMove) : 0 ≤ totalWeight l := by
  induction l with
  | nil => rw [totalWeight_nil]
  | cons m rest ih =>
    rw [totalWeight_cons]
    have := bookWeight_nonneg m
    linarith

/-- The weighted draw stops inside the list whenever the draw does not exceed
the combined count. -/
theorem pickIndex_lt (l : List BookMove) : ∀ rand : ℚ, l ≠ [] →
    rand ≤ totalWeight l → pickIndex rand l < l.length := by
  induction l with
  | nil => intro rand hl _; exact absurd rfl hl
  | cons m rest ih =>
    intro rand _ hr
    unfold pickIndex
    split
    · simp
    · rename_i hc
      rcases rest with _ | ⟨b, rest'⟩
      · exfalso
        rw [totalWeight_cons, totalWeight_nil] at hr
        exact hc (by linarith)
      · have hlt : pickIndex (rand - bookWeight m) (b :: rest') < (b :: rest').length := by
          apply ih
          · simp
          · rw [totalWeight_cons] at hr
            linarith
        simp only [List.length_cons] at hlt ⊢
        omega

/-- The element the running weighted draw stops at is the one at `pickIndex`. -/
theorem weightedLoop_get? (l : List BookMove) : ∀ (rand : ℚ) (c : BookMove),
    pickIndex rand l < l.length →
    l.get? (pickIndex rand l) = some (weightedLoop rand c l) := by
  induction l with
  | nil => intro rand c h; simp at h
  | cons m rest ih =>
    intro rand c h
    by_cases hc : rand - bookWeight m ≤ 0
    · simp [weightedLoop, pickIndex, hc]
    · have hp : pickIndex rand (m :: rest) = pickIndex (rand - bookWeight m) rest + 1 := by
        simp [pickIndex, hc]
      have h' : pickIndex (rand - bookWeight m) rest < rest.length := by
        rw [hp] at h
        simp only [List.length_cons] at h
        omega
      rw [hp]
      show rest.get? (pickIndex (rand - bookWeight m) rest) =
        some (weightedLoop rand c (m :: rest))
      have hw : weightedLoop rand c (m :: rest) =
          weightedLoop (rand - bookWeight m) c rest := by
        simp [weightedLoop, hc]
      rw [hw]
      exact ih (rand - bookWeight m) c h'

/-- The running weighted draw returns either the initial `chosen` or a list
element. -/
theorem weightedLoop_mem (l : List BookMove) : ∀ (rand : ℚ) (c : BookMove),
    weightedLoop rand c l = c ∨ weightedLoop rand c l ∈ l := by
  induction l with
  | nil => intro rand c; exact Or.inl rfl
  | cons m rest ih =>
    intro rand c
    by_cases hc : rand - bookWeight m ≤ 0
    · right
      simp [weightedLoop, hc]
    · have hw : weightedLoop rand c (m :: rest) =
          weightedLoop (rand - bookWeight m) c rest := by
        simp [weightedLoop, hc]
      rw [hw]
      rcases ih (rand - bookWeight m) c with h | h
      · exact Or.inl h
      · exact Or.inr (List.mem_cons_of_mem m h)

/-- The weighted draw stops at continuation `i` exactly when the scaled draw
falls inside continuation `i`'s cumulative count interval: above the combined
count of the continuations before it (for `i = 0` there is none) and at most
the combined count through it. -/
theorem pickIndex_eq_iff (l : List BookMove) : ∀ (rand : ℚ) (i : Nat),
    i < l.length →
    (pickIndex rand l = i ↔
      ((i = 0 ∨ totalWeight (l.take i) < rand) ∧
        rand ≤ totalWeight (l.take (i + 1)))) := by
  induction l with
  | nil => intro rand i hi; simp at hi
  | cons m rest ih =>
    intro rand i hi
    by_cases hc : rand - bookWeight m ≤ 0
    · have hp : pickIndex rand (m :: rest) = 0 := by simp [pickIndex, hc]
      cases i with
      | zero =>
        simp only [hp, List.take_succ_cons, List.take_zero, totalWeight_cons,
          totalWeight_nil]
        constructor
        · intro _
          refine ⟨Or.inl trivial, ?_⟩
          linarith
        · intro _
          trivial
      | succ j =>
        simp only [hp, List.take_succ_cons, totalWeight_cons]
        constructor
        · intro h
          exact absurd h (by omega)
        · rintro ⟨hlow, -⟩
          rcases hlow with h | h
          · exact absurd h (by omega)
          · exfalso
            have := totalWeight_nonneg (rest.take j)
            linarith
    · have hp : pickIndex rand (m :: rest) = pickIndex (rand - bookWeight m) rest + 1 := by
        simp [pickIndex, hc]
      have hrw : bookWeight m < rand := by
        by_contra hcon
        exact hc (by linarith)
      cases i with
      | zero =>
        simp only [hp, List.take_succ_cons, List.take_zero, totalWeight_cons,
          totalWeight_nil]
        constructor
        · intro h
          exact absurd h (by omega)
        · rintro ⟨-, hhigh⟩
          exfalso
          exact hc (by linarith)
      | succ j =>
        have hj : j < rest.length := by
          simp only [List.length_cons] at hi
          omega
        have IH := ih (rand - bookWeight m) j hj
        simp only [hp, Nat.add_right_cancel_iff, List.take_succ_cons,
          totalWeight_cons]
        rw [IH]
        constructor
        · rintro ⟨hlow, hhigh⟩
          refine ⟨?_, by linarith⟩
          rcases hlow with h | h
          · subst h
            right
            simp only [List.take_zero, totalWeight_nil]
            linarith
          · right
            linarith
        · rintro ⟨hlow, hhigh⟩
          refine ⟨?_, by linarith⟩
          rcases hlow with h | h
          · exact absurd h (by omega)
          · rcases Nat.eq_zero_or_pos j with hz | hz
            · exact Or.inl hz
            · right
              linarith

/-- The running-maximum scan returns the initial candidate or a list
element. -/
theorem bestScoredAux_mem (l : List (MoveRec × ℚ)) : ∀ best : MoveRec × ℚ,
    bestScoredAux best l = best ∨ bestScoredAux best l ∈ l := by
  induction l with
  | nil => intro best; exact Or.inl rfl
  | cons x rest ih =>
    intro best
    by_cases hc : best.2 < x.2
    · have hx : bestScoredAux best (x :: rest) = bestScoredAux x rest := by
        simp [bestScoredAux, hc]
      rw [hx]
      rcases ih x with h | h
      · right
        rw [h]
        exact List.mem_cons_self x rest
      · exact Or.inr (List.mem_cons_of_mem x h)
    · have hx : bestScoredAux best (x :: rest) = bestScoredAux best rest := by
        simp [bestScoredAux, hc]
      rw [hx]
      rcases ih best with h | h
      · exact Or.inl h
      · exact Or.inr (List.mem_cons_of_mem x h)

/-- The top-scored element belongs to the scored list. -/
theorem bestScored_mem (l : List (MoveRec × ℚ)) (x : MoveRec × ℚ)
    (h : bestScored l = some x) : x ∈ l := by
  rcases l with _ | ⟨a, rest⟩
  · exact Option.noConfusion h
  · injection h with h
    subst h
    rcases bestScoredAux_mem rest a with h' | h'
    · rw [h']
      exact List.mem_cons_self a rest
    · exact List.mem_cons_of_mem a h'

/-- Scored entries come from the move list. -/
theorem scoreAll_mem (jit : Nat → ℚ) (l : List MoveRec) : ∀ (i : Nat) (p : MoveRec × ℚ),
    p ∈ scoreAll jit i l → p.1 ∈ l := by
  induction l with
  | nil => intro i p hp; simp [scoreAll] at hp
  | cons m rest ih =>
    intro i p hp
    simp only [scoreAll, List.mem_cons] at hp
    rcases hp with h | h
    · subst h
      exact List.mem_cons_self m rest
    · exact List.mem_cons_of_mem m (ih (i + 1) p h)

/-- Scoring a nonempty move list yields a nonempty scored list. -/
theorem scoreAll_ne_nil (jit : Nat → ℚ) (i : Nat) (l : List MoveRec) (h : l ≠ []) :
    scoreAll jit i l ≠ [] := by
  rcases l with _ | ⟨m, rest⟩
  · exact absurd rfl h
  · simp [scoreAll]

/-- The heuristic scorer always returns the SAN of one of the legal moves
when any exist. -/
theorem heuristicMove_legal (eng : RulesEngine) (rnd : RandSrc) (g : LiveGame)
    (hmv : eng.legalMoves g.fen ≠ []) :
    ∃ san, heuristicMove eng rnd g = some san ∧
      san ∈ (eng.legalMoves g.fen).map MoveRec.san := by
  unfold heuristicMove
  dsimp only
  rcases hsc : scoreAll rnd.jitter 0 (eng.legalMoves g.fen) with _ | ⟨y, ys⟩
  · exact absurd hsc (scoreAll_ne_nil rnd.jitter 0 _ hmv)
  · refine ⟨(bestScoredAux y ys).1.san, ?_, ?_⟩
    · rfl
    · have hmem : (bestScoredAux y ys) ∈ y :: ys := by
        rcases bestScoredAux_mem ys y with h | h
        · rw [h]
          exact List.mem_cons_self y ys
        · exact List.mem_cons_of_mem y h
      rw [← hsc] at hmem
      have := scoreAll_mem rnd.jitter (eng.legalMoves g.fen) 0 _ hmem
      exact List.mem_map_of_mem MoveRec.san this

/-- The intermediate tier always returns the SAN of a legal move when any
exist, provided the explorer's ranked continuations (when the call succeeds)
are continuations of the current position, i.e. legal. -/
theorem intermediateMove_legal (eng : RulesEngine) (sv : ExtServices) (rnd : RandSrc)
    (g : LiveGame) (hmv : eng.legalMoves g.fen ≠ [])
    (hbook : ∀ data, sv.lichess = some data → ∀ bm ∈ data.moves,
      bm.san ∈ (eng.legalMoves g.fen).map MoveRec.san) :
    ∃ san, intermediateMove eng sv rnd g = some san ∧
      san ∈ (eng.legalMoves g.fen).map MoveRec.san := by
  unfold intermediateMove
  rcases hl : sv.lichess with _ | data
  · exact heuristicMove_legal eng rnd g hmv
  · dsimp only
    by_cases hd : data.moves ≠ []
    · rw [if_pos hd]
      rcases ht : data.moves.take 3 with _ | ⟨m0, restT⟩
      · exfalso
        rcases hms : data.moves with _ | ⟨a, l'⟩
        · exact hd hms
        · rw [hms] at ht
          simp [List.take_succ_cons] at ht
      · refine ⟨(weightedLoop (rnd.rBook * totalWeight (data.moves.take 3)) m0
          (data.moves.take 3)).san, ?_, ?_⟩
        · rw [ht]
        · have hmem : weightedLoop (rnd.rBook * totalWeight (data.moves.take 3)) m0
              (data.moves.take 3) ∈ data.moves.take 3 := by
            rw [ht]
            rcases weightedLoop_mem (m0 :: restT)
                (rnd.rBook * totalWeight (m0 :: restT)) m0 with h | h
            · rw [h]
              exact List.mem_cons_self m0 restT
            · exact h
          have hmem' : weightedLoop (rnd.rBook * totalWeight (data.moves.take 3)) m0
              (data.moves.take 3) ∈ data.moves := List.take_subset 3 data.moves hmem
          exact hbook data hl _ hmem'
    · rw [if_neg hd]
      exact heuristicMove_legal eng rnd g hmv

/-- C4: whenever the evaluator request fails, or it suggests no move, or the
suggested move is not legal in the current position, the advanced tier
returns exactly what the full intermediate strategy (database lookup, then
heuristic scoring) returns, and for every position with at least one legal
move that is not game over this is some legal move — never `null`.  (The
explorer's ranked continuations, being next moves for the queried position,
are assumed legal.) -/
theorem getComputerMove_advanced_fallback (eng : RulesEngine) (sv : ExtServices)
    (rnd : RandSrc) (g : LiveGame)
    (hover : eng.gameOver g.fen = false)
    (hmv : eng.legalMoves g.fen ≠ [])
    (hfail : sv.stockfish = none ∨
      ∃ a, sv.stockfish = some a ∧ (a.bestMove = "" ∨
        eng.coordMove g.fen (MoveInput.mk (uciFromSq a.bestMove) (uciToSq a.bestMove)
          (uciPromo a.bestMove)) = none))
    (hbook : ∀ data, sv.lichess = some data → ∀ bm ∈ data.moves,
      bm.san ∈ (eng.legalMoves g.fen).map MoveRec.san) :
    (getComputerMove eng sv rnd g Difficulty.advanced).1 =
      advancedFallback eng sv rnd g ∧
    ∃ san, (getComputerMove eng sv rnd g Difficulty.advanced).1 = some san ∧
      san ∈ (eng.legalMoves g.fen).map MoveRec.san := by
  have hg1 : ¬ eng.gameOver g.fen = true := by simp [hover]
  have hfb : advancedFallback eng sv rnd g = intermediateMove eng sv rnd g := by
    unfold advancedFallback
    rw [if_neg hg1, if_neg hmv]
  have heq : (getComputerMove eng sv rnd g Difficulty.advanced).1 =
      advancedFallback eng sv rnd g := by
    unfold getComputerMove
    rw [if_neg hg1]
    try dsimp only
    rw [if_neg hmv]
    try dsimp only
    rcases hfail with hnone | ⟨a, ha, hbad⟩
    · rw [hnone]
    · rw [ha]
      try dsimp only
      rcases hbad with hb1 | hb2
      · rw [if_neg (by simp [hb1])]
      · by_cases hbm : a.bestMove ≠ ""
        · rw [if_pos hbm]
          have hac : applyCoordMove eng g
              (MoveInput.mk (uciFromSq a.bestMove) (uciToSq a.bestMove)
                (uciPromo a.bestMove)) = none := by
            unfold applyCoordMove
            rw [hb2]
          rw [hac]
        · rw [if_neg hbm]
  refine ⟨heq, ?_⟩
  rw [heq, hfb]
  exact intermediateMove_legal eng sv rnd g hmv hbook

/-- Witness for C4: with the evaluator and the database both failing on the
one-legal-move position, the advanced tier falls back and returns the legal
move e4. -/
theorem getComputerMove_advanced_fallback_witness :
    (getComputerMove svcEngine failSv halfRnd svcGame Difficulty.advanced).1 =
      advancedFallback svcEngine failSv halfRnd svcGame ∧
    (getComputerMove svcEngine failSv halfRnd svcGame Difficulty.advanced).1 =
      some "e4" := by
  have H := getComputerMove_advanced_fallback svcEngine failSv halfRnd svcGame
    rfl (by decide) (Or.inl rfl) (fun data hd => Option.noConfusion hd)
  refine ⟨H.1, ?_⟩
  obtain ⟨san, hs1, hs2⟩ := H.2
  have hmap : (svcEngine.legalMoves svcGame.fen).map MoveRec.san = ["e4"] := by decide
  rw [hmap] at hs2
  have hsan : san = "e4" := by simpa using hs2
  rw [← hsan]
  exact hs1

/-- C7: with a successful database response holding at least one ranked
continuation, the intermediate tier returns the SAN of the continuation the
running weighted draw stops at inside the top three: `pickIndex` lands
strictly inside the top-three list, equals `i` exactly when the uniform draw
scaled by the combined game count of those three falls in continuation `i`'s
cumulative count interval, and the chosen move is one of the top three — each
is selected with probability proportional to its `white + draws + black`
count, not always the top one. -/
theorem getComputerMove_intermediate_weighted (eng : RulesEngine) (sv : ExtServices)
    (rnd : RandSrc) (g : LiveGame) (data : ExplorerData)
    (hover : eng.gameOver g.fen = false)
    (hmv : eng.legalMoves g.fen ≠ [])
    (hdata : sv.lichess = some data)
    (hne : data.moves ≠ [])
    (hr0 : 0 ≤ rnd.rBook) (hr1 : rnd.rBook < 1) :
    ((data.moves.take 3).get? (pickIndex
        (rnd.rBook * totalWeight (data.moves.take 3)) (data.moves.take 3))).map
        BookMove.san =
      (getComputerMove eng sv rnd g Difficulty.intermediate).1 ∧
    pickIndex (rnd.rBook * totalWeight (data.moves.take 3)) (data.moves.take 3) <
      (data.moves.take 3).length ∧
    (∀ i, i < (data.moves.take 3).length →
      (pickIndex (rnd.rBook * totalWeight (data.moves.take 3)) (data.moves.take 3) = i ↔
        ((i = 0 ∨ totalWeight ((data.moves.take 3).take i) <
            rnd.rBook * totalWeight (data.moves.take 3)) ∧
          rnd.rBook * totalWeight (data.moves.take 3) ≤
            totalWeight ((data.moves.take 3).take (i + 1))))) ∧
    (∃ bm, bm ∈ data.moves.take 3 ∧
      (getComputerMove eng sv rnd g Difficulty.intermediate).1 = some bm.san) := by
  have hg1 : ¬ eng.gameOver g.fen = true := by simp [hover]
  have htop : data.moves.take 3 ≠ [] := by
    rcases hms : data.moves with _ | ⟨a, l'⟩
    · exact absurd hms hne
    · simp
  rcases ht : data.moves.take 3 with _ | ⟨m0, restT⟩
  · exact absurd ht htop
  · have hT0 : 0 ≤ totalWeight (m0 :: restT) := totalWeight_nonneg _
    have hrT : rnd.rBook * totalWeight (m0 :: restT) ≤ totalWeight (m0 :: restT) :=
      mul_le_of_le_one_left hT0 (le_of_lt hr1)
    have hlt := pickIndex_lt (m0 :: restT)
      (rnd.rBook * totalWeight (m0 :: restT)) (by simp) hrT
    have hcall : (getComputerMove eng sv rnd g Difficulty.intermediate).1 =
        some (weightedLoop (rnd.rBook * totalWeight (m0 :: restT)) m0
          (m0 :: restT)).san := by
      unfold getComputerMove
      rw [if_neg hg1]
      try dsimp only
      rw [if_neg hmv]
      try dsimp only
      unfold intermediateMove
      rw [hdata]
      try dsimp only
      rw [if_pos hne, ht]
    refine ⟨?_, hlt, ?_, ?_⟩
    · rw [hcall, weightedLoop_get? (m0 :: restT)
        (rnd.rBook * totalWeight (m0 :: restT)) m0 hlt]
      rfl
    · intro i hi
      exact pickIndex_eq_iff (m0 :: restT)
        (rnd.rBook * totalWeight (m0 :: restT)) i hi
    · exact ⟨weightedLoop (rnd.rBook * totalWeight (m0 :: restT)) m0 (m0 :: restT),
        List.get?_mem (weightedLoop_get? (m0 :: restT)
          (rnd.rBook * totalWeight (m0 :: restT)) m0 hlt), hcall⟩

/-- Witness for C7: on the concrete four-continuation response with counts
10, 4, 2, 1, the returned SAN is the one at the index the weighted draw stops
at within the top three. -/
theorem getComputerMove_intermediate_weighted_witness :
    ((bookData.moves.take 3).get? (pickIndex
        (halfRnd.rBook * totalWeight (bookData.moves.take 3))
        (bookData.moves.take 3))).map BookMove.san =
      (getComputerMove svcEngine bookSv halfRnd svcGame Difficulty.intermediate).1 :=
  (getComputerMove_intermediate_weighted svcEngine bookSv halfRnd svcGame bookData
    rfl (by decide) rfl (by decide) (by decide) (by decide)).1

end LondonTrainer
